import Mathlib

/-!
Shallow embedding of the diffparser repository (src/diffparser.go):
the data model (Diff, DiffFile, DiffChunk, DiffRange, DiffLine), the
Parse state machine, and the derived queries Changed and DiffChunk.Length.
Go strings are modelled as Lean strings (operated on through their
character lists); Go machine integers as Int with strconv.Atoi's 64-bit
range check made explicit; Go runtime panics (nil-pointer dereference,
out-of-range slicing) as a dedicated result constructor.
-/

namespace Diffparser

/-- FileMode represents the file status in a diff. -/
inductive FileMode where
  | Deleted
  | Modified
  | New
deriving DecidableEq, Repr

/-- DiffLineMode tells the line if added, removed or unchanged. -/
inductive DiffLineMode where
  | Added
  | Removed
  | Unchanged
deriving DecidableEq, Repr

/-- DiffLine is the least part of an actual diff. -/
structure DiffLine where
  Mode : DiffLineMode
  Number : Int
  Content : String
  Position : Int
deriving DecidableEq, Repr

/-- DiffRange contains the DiffLine records of one side of a hunk. -/
structure DiffRange where
  Start : Int
  Length : Int
  Lines : List DiffLine
deriving DecidableEq, Repr

/-- DiffChunk is a group of difflines. -/
structure DiffChunk where
  ChunkHeader : String
  OrigRange : DiffRange
  NewRange : DiffRange
  WholeRange : DiffRange
deriving DecidableEq, Repr

/-- DiffFile is the sum of diffhunks and holds the changes of the file features. -/
structure DiffFile where
  DiffHeader : String
  Mode : FileMode
  OrigName : String
  NewName : String
  Chunks : List DiffChunk
deriving DecidableEq, Repr

/-- Diff is the collection of DiffFiles. -/
structure Diff where
  Files : List DiffFile
  Raw : String
  PullID : Nat
deriving DecidableEq, Repr

/-- Result of running a piece of Go code: a value, a returned error, or a
runtime panic. -/
inductive GoResult (ε α : Type) where
  | ok (a : α)
  | err (e : ε)
  | panic
deriving DecidableEq, Repr

/-- The error values Parse can return. -/
inductive ParseErr where
  | lineModeErr (line : String)
  | hunkHeaderErr (line : String)
  | atoiErr (field : String)
deriving DecidableEq, Repr

/-- The message text of each error value, as built by the Go code
(errors.New for the first two, strconv's range error for the third). -/
def ParseErr.message : ParseErr → String
  | .lineModeErr l => "could not parse line mode for line: \"" ++ l ++ "\""
  | .hunkHeaderErr l => "Error parsing line: " ++ l
  | .atoiErr s => "strconv.Atoi: parsing \"" ++ s ++ "\": value out of range"

/-- strings.Split(s, newline): split a character list at every newline. -/
def splitLines : List Char → List (List Char)
  | [] => [[]]
  | c :: rest =>
    if c = '\n' then [] :: splitLines rest
    else
      match splitLines rest with
      | g :: gs => (c :: g) :: gs
      | [] => [[c]]

/-- strings.HasPrefix(l, "diff "). -/
def startsDiff (l : String) : Bool :=
  match l.toList with
  | 'd' :: 'i' :: 'f' :: 'f' :: ' ' :: _ => true
  | _ => false

/-- l == "+++ /dev/null" (string equality, decided on the character list). -/
def isNullNew (l : String) : Bool :=
  if l.toList = "+++ /dev/null".toList then true else false

/-- l == "--- /dev/null". -/
def isNullOrig (l : String) : Bool :=
  if l.toList = "--- /dev/null".toList then true else false

/-- strings.HasPrefix(l, oldFilePrefix) with oldFilePrefix = "--- a/". -/
def startsOldName (l : String) : Bool :=
  match l.toList with
  | '-' :: '-' :: '-' :: ' ' :: 'a' :: '/' :: _ => true
  | _ => false

/-- strings.HasPrefix(l, newFilePrefix) with newFilePrefix = "+++ b/". -/
def startsNewName (l : String) : Bool :=
  match l.toList with
  | '+' :: '+' :: '+' :: ' ' :: 'b' :: '/' :: _ => true
  | _ => false

/-- strings.HasPrefix(l, "@@ "). -/
def startsHunk (l : String) : Bool :=
  match l.toList with
  | '@' :: '@' :: ' ' :: _ => true
  | _ => false

/-- The regular expression "^index .+$" applied to a full line (lines
contain no newline, so ".+" is any nonempty remainder). -/
def isIndexLine (l : String) : Bool :=
  match l.toList with
  | 'i' :: 'n' :: 'd' :: 'e' :: 'x' :: ' ' :: rest => !rest.isEmpty
  | _ => false

def isMarkerCh (c : Char) : Bool := c == '-' || c == '+'

/-- The regular expression "^(-|\+)(-|\+)(-|\+) .+$" (written with a
counted repetition in the source) applied to a full line. -/
def isMarkerLine (l : String) : Bool :=
  match l.toList with
  | c1 :: c2 :: c3 :: ' ' :: rest =>
    isMarkerCh c1 && isMarkerCh c2 && isMarkerCh c3 && !rest.isEmpty
  | _ => false

/-- isSourceLine from the source: false for the no-newline marker, the
empty line, and lines whose first three characters are "---" or "+++". -/
def isSourceLine (line : String) : Bool :=
  if line.toList = "\\ No newline at end of file".toList then false
  else
    match line.toList with
    | [] => false
    | c1 :: c2 :: c3 :: _ =>
      if (c1 = '-' ∧ c2 = '-' ∧ c3 = '-') ∨ (c1 = '+' ∧ c2 = '+' ∧ c3 = '+') then false
      else true
    | _ => true

/-- lineMode from the source. Go indexes line[:1], which panics on the
empty string; Parse only calls it on source lines, which are nonempty. -/
def lineMode (line : String) : GoResult ParseErr DiffLineMode :=
  match line.toList with
  | [] => .panic
  | c :: _ =>
    if c = ' ' then .ok .Unchanged
    else if c = '+' then .ok .Added
    else if c = '-' then .ok .Removed
    else .err (.lineModeErr line)

/-- Maximal leading run of decimal digits, and the remainder. -/
def takeDigits : List Char → List Char × List Char
  | [] => ([], [])
  | c :: rest =>
    if c.isDigit then
      let p := takeDigits rest
      (c :: p.1, p.2)
    else ([], c :: rest)

/-- Match the regex fragment "(\d+),?(\d+)?" at the head of the input:
the first capture (nonempty), the second capture (possibly empty), and
the remainder.  Greedy matching with backtracking cannot produce any
other split here: every shorter choice puts a digit where the following
literal space must match. -/
def matchNumPair (cs : List Char) : Option (List Char × List Char × List Char) :=
  match takeDigits cs with
  | ([], _) => none
  | (d1, rest1) =>
    let rest2 := match rest1 with
      | ',' :: r => r
      | r => r
    let p := takeDigits rest2
    some (d1, p.1, p.2)

/-- Match the whole hunk-heading regex
"@@ \-(\d+),?(\d+)? \+(\d+),?(\d+)? @@ ?(.+)?" anchored at the head of
the input, returning the five capture groups (unmatched optional groups
as empty lists, as Go's FindStringSubmatch reports them). -/
def matchHunkAt (cs : List Char) : Option (List Char × List Char × List Char × List Char × List Char) :=
  match cs with
  | '@' :: '@' :: ' ' :: '-' :: cs1 =>
    match matchNumPair cs1 with
    | none => none
    | some (g1, g2, cs2) =>
      match cs2 with
      | ' ' :: '+' :: cs3 =>
        match matchNumPair cs3 with
        | none => none
        | some (g3, g4, cs4) =>
          match cs4 with
          | ' ' :: '@' :: '@' :: cs5 =>
            let g5 := match cs5 with
              | ' ' :: r => r
              | r => r
            some (g1, g2, g3, g4, g5)
          | _ => none
      | _ => none
  | _ => none

/-- The regex is not anchored: FindStringSubmatch returns the leftmost
match, so try every start position left to right. -/
def findHunkMatch : List Char → Option (List Char × List Char × List Char × List Char × List Char)
  | [] => none
  | c :: rest =>
    match matchHunkAt (c :: rest) with
    | some m => some m
    | none => findHunkMatch rest

def digitsVal (cs : List Char) : Nat :=
  cs.foldl (fun a c => a * 10 + (c.toNat - 48)) 0

/-- strconv.Atoi restricted to the call sites in Parse: the argument is
a capture of "\d+", so the only failure mode is the 64-bit range check. -/
def goAtoi (s : String) : Except ParseErr Int :=
  if s.toList ≠ [] ∧ s.toList.all Char.isDigit then
    if digitsVal s.toList ≤ 9223372036854775807 then .ok (Int.ofNat (digitsVal s.toList))
    else .error (.atoiErr s)
  else .error (.atoiErr s)

/-- The four numeric conversions of the hunk heading, with the source's
defaulting: an empty length capture defaults to the start value. -/
def parseHunkNums (g1 g2 g3 g4 : String) : Except ParseErr (Int × Int × Int × Int) :=
  match goAtoi g1 with
  | .error e => .error e
  | .ok a =>
    match (if 0 < g2.toList.length then goAtoi g2 else .ok a) with
    | .error e => .error e
    | .ok b =>
      match goAtoi g3 with
      | .error e => .error e
      | .ok c =>
        match (if 0 < g4.toList.length then goAtoi g4 else .ok c) with
        | .error e => .error e
        | .ok d => .ok (a, b, c, d)

/-- The mutable loop state of Parse: the files built so far (the Go
variable file always points at the last of them when non-nil, so a nil
file pointer is exactly an empty list), the two line counters, the
in-hunk flag, the position counter, and the first-hunk-in-file flag. -/
structure ParseState where
  files : List DiffFile
  AddedCount : Int
  RemovedCount : Int
  inHunk : Bool
  diffPosCount : Int
  firstHunkInFile : Bool
deriving DecidableEq, Repr

def initState : ParseState :=
  { files := [], AddedCount := 0, RemovedCount := 0, inHunk := false,
    diffPosCount := 0, firstHunkInFile := false }

/-- Replace the last element of a list (the Go code mutates through a
pointer to the last appended element). -/
def modifyLast {α : Type} (f : α → α) : List α → List α
  | [] => []
  | [a] => [f a]
  | a :: b :: rest => a :: modifyLast f (b :: rest)

def modifyLastChunk (g : DiffChunk → DiffChunk) (f : DiffFile) : DiffFile :=
  { f with Chunks := modifyLast g f.Chunks }

/-- The header block of a new file: the diff line, plus lookahead at the
next three raw lines exactly as the source indexes them (lines[idx+1]
for the index line, lines[idx+2] and lines[idx+3] for the marker pair),
guarded by len(lines) > idx+3. -/
def buildHeader (l : String) (rest : List String) : String :=
  match rest with
  | l1 :: l2 :: l3 :: _ =>
    let h1 := if isIndexLine l1 then l ++ "\n" ++ l1 else l
    if isMarkerLine l2 && isMarkerLine l3 then h1 ++ "\n" ++ l2 ++ "\n" ++ l3 else h1
  | _ => l

/-- The "diff " case of the switch: start a new file. -/
def applyDiffLine (st : ParseState) (l : String) (rest : List String) : ParseState :=
  { st with
    inHunk := false
    files := st.files ++ [{ DiffHeader := buildHeader l rest, Mode := FileMode.Modified,
                            OrigName := "", NewName := "", Chunks := [] }]
    firstHunkInFile := true }

/-- file.Mode = m; dereferences the nil file pointer when no diff line
has been seen. -/
def setFileMode (m : FileMode) (st : ParseState) : GoResult ParseErr ParseState :=
  match st.files with
  | [] => .panic
  | _ :: _ => .ok { st with files := modifyLast (fun f => { f with Mode := m }) st.files }

/-- file.OrigName = strings.TrimPrefix(l, "--- a/"); the guard ensures
the prefix is present, so TrimPrefix drops its six characters. -/
def setOrigName (st : ParseState) (l : String) : GoResult ParseErr ParseState :=
  match st.files with
  | [] => .panic
  | _ :: _ => .ok { st with
      files := modifyLast (fun f => { f with OrigName := String.mk (l.toList.drop 6) }) st.files }

/-- file.NewName = strings.TrimPrefix(l, "+++ b/"). -/
def setNewName (st : ParseState) (l : String) : GoResult ParseErr ParseState :=
  match st.files with
  | [] => .panic
  | _ :: _ => .ok { st with
      files := modifyLast (fun f => { f with NewName := String.mk (l.toList.drop 6) }) st.files }

/-- The position-counter reset performed on the first hunk of a file. -/
def hunkReset (st : ParseState) : ParseState :=
  if st.firstHunkInFile then { st with diffPosCount := 0, firstHunkInFile := false } else st

/-- The chunk built from the four converted numbers and the trailing
free-text capture (Go zero values for the untouched WholeRange bounds). -/
def mkChunk (a b c d : Int) (g5 : List Char) : DiffChunk :=
  { ChunkHeader := if 0 < g5.length then String.mk g5 else ""
    OrigRange := { Start := a, Length := b, Lines := [] }
    NewRange := { Start := c, Length := d, Lines := [] }
    WholeRange := { Start := 0, Length := 0, Lines := [] } }

/-- The "@@ " case of the switch.  The source appends the fresh chunk to
file.Chunks (dereferencing a nil file pointer) before matching the
heading, so with no current file this case panics whatever the line
says; on a match failure or conversion failure the whole parse aborts,
so building the chunk after the conversions is observationally equal. -/
def applyHunkHeader (st : ParseState) (l : String) : GoResult ParseErr ParseState :=
  match st.files with
  | [] => .panic
  | _ :: _ =>
    match findHunkMatch l.toList with
    | none => .err (.hunkHeaderErr l)
    | some (g1, g2, g3, g4, g5) =>
      match parseHunkNums (String.mk g1) (String.mk g2) (String.mk g3) (String.mk g4) with
      | .error e => .err e
      | .ok (a, b, c, d) =>
        .ok { hunkReset st with
          inHunk := true
          files := modifyLast (fun f => { f with Chunks := f.Chunks ++ [mkChunk a b c d g5] })
            (hunkReset st).files
          AddedCount := c
          RemovedCount := a }

def appendNewWhole (nl : DiffLine) (h : DiffChunk) : DiffChunk :=
  { h with NewRange := { h.NewRange with Lines := h.NewRange.Lines ++ [nl] }
           WholeRange := { h.WholeRange with Lines := h.WholeRange.Lines ++ [nl] } }

def appendOrigWhole (ol : DiffLine) (h : DiffChunk) : DiffChunk :=
  { h with OrigRange := { h.OrigRange with Lines := h.OrigRange.Lines ++ [ol] }
           WholeRange := { h.WholeRange with Lines := h.WholeRange.Lines ++ [ol] } }

def appendUnchanged (nl ol : DiffLine) (h : DiffChunk) : DiffChunk :=
  { h with NewRange := { h.NewRange with Lines := h.NewRange.Lines ++ [nl] }
           WholeRange := { h.WholeRange with Lines := h.WholeRange.Lines ++ [nl] }
           OrigRange := { h.OrigRange with Lines := h.OrigRange.Lines ++ [ol] } }

/-- The hunk-body case of the switch.  Content starts as l[1:]; Added
and Removed lines then slice one more character off, which panics (slice
bound out of range) when the line is the bare marker. -/
def applyBodyLine (st : ParseState) (l : String) : GoResult ParseErr ParseState :=
  match lineMode l with
  | .panic => .panic
  | .err e => .err e
  | .ok m =>
    match m with
    | .Added =>
      match l.toList.drop 1 with
      | [] => .panic
      | _ :: _ =>
        .ok { st with
          files := modifyLast (modifyLastChunk (appendNewWhole
            { Mode := m, Number := st.AddedCount,
              Content := String.mk (l.toList.drop 2), Position := st.diffPosCount })) st.files
          AddedCount := st.AddedCount + 1 }
    | .Removed =>
      match l.toList.drop 1 with
      | [] => .panic
      | _ :: _ =>
        .ok { st with
          files := modifyLast (modifyLastChunk (appendOrigWhole
            { Mode := m, Number := st.RemovedCount,
              Content := String.mk (l.toList.drop 2), Position := st.diffPosCount })) st.files
          RemovedCount := st.RemovedCount + 1 }
    | .Unchanged =>
      .ok { st with
        files := modifyLast (modifyLastChunk (appendUnchanged
          { Mode := m, Number := st.AddedCount,
            Content := String.mk (l.toList.drop 1), Position := st.diffPosCount }
          { Mode := m, Number := st.RemovedCount,
            Content := String.mk (l.toList.drop 1), Position := st.diffPosCount })) st.files
        AddedCount := st.AddedCount + 1
        RemovedCount := st.RemovedCount + 1 }

/-- The blanket per-iteration position increment at the top of the loop. -/
def bumpPos (st : ParseState) : ParseState :=
  { st with diffPosCount := st.diffPosCount + 1 }

/-- One iteration of the Parse loop: the blanket position increment
followed by the switch, with the cases in source order. -/
def stepLine (st : ParseState) (l : String) (rest : List String) : GoResult ParseErr ParseState :=
  if startsDiff l then .ok (applyDiffLine (bumpPos st) l rest)
  else if isNullNew l then setFileMode FileMode.Deleted (bumpPos st)
  else if isNullOrig l then setFileMode FileMode.New (bumpPos st)
  else if startsOldName l then setOrigName (bumpPos st) l
  else if startsNewName l then setNewName (bumpPos st) l
  else if startsHunk l then applyHunkHeader (bumpPos st) l
  else if (bumpPos st).inHunk && isSourceLine l then applyBodyLine (bumpPos st) l
  else .ok (bumpPos st)

/-- The Parse loop over the remaining lines.  The Go loop reads the
lookahead from lines[idx+1..idx+3], which is exactly the head of the
remaining-suffix argument passed to stepLine. -/
def runLines : List String → ParseState → GoResult ParseErr ParseState
  | [], st => .ok st
  | l :: rest, st =>
    match stepLine st l rest with
    | .ok st' => runLines rest st'
    | .err e => .err e
    | .panic => .panic

/-- Parse takes a diff, such as produced by "git diff", and parses it
into a Diff struct (or an error, or a runtime panic). -/
def Parse (diffString : String) : GoResult ParseErr Diff :=
  let lines := (splitLines diffString.toList).map String.mk
  match runLines lines initState with
  | .ok st => .ok { Files := st.files, Raw := diffString, PullID := 0 }
  | .err e => .err e
  | .panic => .panic

/-- One map-update step of Changed for one line of a chunk's NewRange. -/
def changedLineStep (newName : String) (acc : String → List Int) (dl : DiffLine) :
    String → List Int :=
  if dl.Mode = DiffLineMode.Added then
    fun name => if name = newName then acc name ++ [dl.Number] else acc name
  else acc

def changedChunkStep (newName : String) (acc : String → List Int) (h : DiffChunk) :
    String → List Int :=
  h.NewRange.Lines.foldl (changedLineStep newName) acc

def changedFileStep (acc : String → List Int) (f : DiffFile) : String → List Int :=
  if f.Mode = FileMode.Deleted then acc
  else f.Chunks.foldl (changedChunkStep f.NewName) acc

/-- Changed returns a map of filename to lines changed in that file.
Deleted files are ignored.  The Go map is modelled as a total function
defaulting to the empty list (a missing key and a nil slice are the same
observable). -/
def Diff.Changed (d : Diff) : String → List Int :=
  d.Files.foldl changedFileStep (fun _ => [])

/-- Length returns the hunks line length. -/
def DiffChunk.Length (hunk : DiffChunk) : Int :=
  hunk.WholeRange.Lines.length + 1

/-- The chunk the Go variable hunk points at: the last chunk of the last
file. -/
def filesLastChunk? (files : List DiffFile) : Option DiffChunk :=
  match files.getLast? with
  | some f => f.Chunks.getLast?
  | none => none

def lastChunk? (st : ParseState) : Option DiffChunk :=
  filesLastChunk? st.files

/-- First file of a parse result, for stating concrete evaluations. -/
def firstFile? (r : GoResult ParseErr Diff) : Option DiffFile :=
  match r with
  | .ok d => d.Files.head?
  | _ => none

/-- First chunk of the first file of a parse result. -/
def firstChunk? (r : GoResult ParseErr Diff) : Option DiffChunk :=
  match firstFile? r with
  | some f => f.Chunks.head?
  | none => none

/-- The added-line numbers of one chunk side, in order. -/
def addedOf (lines : List DiffLine) : List Int :=
  (lines.filter (fun dl => dl.Mode == DiffLineMode.Added)).map (fun dl => dl.Number)

/-- The Added-mode line numbers of a file, chunks in order. -/
def addedNumbers (f : DiffFile) : List Int :=
  f.Chunks.flatMap (fun h => addedOf h.NewRange.Lines)

/-- Modelled from the spec (the claim's own words, for comparison with
Changed): for each name, the Number fields of the Added-mode lines of the
NewRange chunks of every non-Deleted file carrying that NewName, in input
order. -/
def changedSpec (d : Diff) (name : String) : List Int :=
  (d.Files.filter (fun f => !(f.Mode == FileMode.Deleted) && f.NewName == name)).flatMap
    addedNumbers

/-- Modelled from the spec (the amended claim's words, for comparison
with buildHeader): the diff line; when at least three lines follow it,
the first following line is appended when it matches the index pattern,
and the second and third following lines are appended when both match
the marker pattern. -/
def headerSpec (l : String) (rest : List String) : String :=
  if rest.length < 3 then l
  else
    let withIndex := if isIndexLine (rest.getD 0 "") then l ++ "\n" ++ rest.getD 0 "" else l
    if isMarkerLine (rest.getD 1 "") && isMarkerLine (rest.getD 2 "") then
      withIndex ++ "\n" ++ rest.getD 1 "" ++ "\n" ++ rest.getD 2 ""
    else withIndex

/-- An error value carries a line when the line occurs inside its
message text. -/
def carriesLine (e : ParseErr) (l : String) : Prop :=
  l.toList <:+: e.message.toList

instance (e : ParseErr) (l : String) : Decidable (carriesLine e l) :=
  List.decidableInfix l.toList e.message.toList

/-- The first file of the repository's own example diff, whose expected
parse is spelled out in the test suite (Content "add a line", "in"). -/
def exampleDiff1 : String :=
  "diff --git a/file1 b/file1\n--- a/file1\n+++ b/file1\n@@ -1,4 +1,4 @@\n+add a line\n some\n lines\n-in\n file1"

/-- Extract the state of a successful step, for concrete instantiations. -/
def okState (r : GoResult ParseErr ParseState) : ParseState :=
  match r with
  | .ok st => st
  | _ => initState

/-- A one-file state as it stands right after a "diff " line. -/
def wFile : DiffFile :=
  { DiffHeader := "diff a b", Mode := FileMode.Modified, OrigName := "", NewName := "",
    Chunks := [] }

def wst1 : ParseState :=
  { files := [wFile], AddedCount := 0, RemovedCount := 0, inHunk := false,
    diffPosCount := 1, firstHunkInFile := true }

/-- A one-file one-chunk state as it stands right after a hunk heading. -/
def wChunk : DiffChunk := mkChunk 1 1 1 1 []

def wst2 : ParseState :=
  { files := [{ wFile with Chunks := [wChunk] }], AddedCount := 1, RemovedCount := 1,
    inHunk := true, diffPosCount := 2, firstHunkInFile := false }

theorem modifyLast_cons_cons {α : Type} (g : α → α) (x y : α) (ys : List α) :
    modifyLast g (x :: y :: ys) = x :: modifyLast g (y :: ys) := rfl

theorem getLast?_modifyLast {α : Type} (g : α → α) :
    ∀ (l : List α) (a : α), l.getLast? = some a → (modifyLast g l).getLast? = some (g a) := by
  intro l
  induction l with
  | nil => intro a h; simp at h
  | cons x xs ih =>
    intro a h
    cases xs with
    | nil =>
      simp at h
      subst h
      rfl
    | cons y ys =>
      rw [List.getLast?_cons_cons] at h
      have h2 := ih a h
      rw [modifyLast_cons_cons]
      cases hm : modifyLast g (y :: ys) with
      | nil => rw [hm] at h2; simp at h2
      | cons z zs =>
        rw [hm] at h2
        rw [List.getLast?_cons_cons]
        exact h2

theorem filesLastChunk?_modify (g : DiffChunk → DiffChunk) (files : List DiffFile)
    (ch : DiffChunk) (h : filesLastChunk? files = some ch) :
    filesLastChunk? (modifyLast (modifyLastChunk g) files) = some (g ch) := by
  unfold filesLastChunk? at h ⊢
  cases hf : files.getLast? with
  | none => rw [hf] at h; simp at h
  | some f =>
    rw [hf] at h
    rw [getLast?_modifyLast (modifyLastChunk g) files f hf]
    exact getLast?_modifyLast g f.Chunks ch h

theorem filesLastChunk?_appendChunk (hunk : DiffChunk) (files : List DiffFile)
    (hne : files ≠ []) :
    filesLastChunk?
      (modifyLast (fun f => { f with Chunks := f.Chunks ++ [hunk] }) files) = some hunk := by
  have hs : files.getLast?.isSome := List.getLast?_isSome.mpr hne
  obtain ⟨f, hf⟩ := Option.isSome_iff_exists.mp hs
  unfold filesLastChunk?
  rw [getLast?_modifyLast _ files f hf]
  exact List.getLast?_concat _

theorem startsHunk_shape (l : String) (h : startsHunk l = true) :
    ∃ t, l.toList = '@' :: '@' :: ' ' :: t := by
  unfold startsHunk at h
  split at h
  · next t heq => exact ⟨t, heq⟩
  · simp at h

theorem startsDiff_shape (l : String) (h : startsDiff l = true) :
    ∃ t, l.toList = 'd' :: 'i' :: 'f' :: 'f' :: ' ' :: t := by
  unfold startsDiff at h
  split at h
  · next t heq => exact ⟨t, heq⟩
  · simp at h

theorem isNullNew_src_false (l : String) (h : isNullNew l = true) : isSourceLine l = false := by
  unfold isNullNew at h
  split at h
  · next heq =>
      unfold isSourceLine
      rw [heq]
      decide
  · simp at h

theorem isNullOrig_src_false (l : String) (h : isNullOrig l = true) : isSourceLine l = false := by
  unfold isNullOrig at h
  split at h
  · next heq =>
      unfold isSourceLine
      rw [heq]
      decide
  · simp at h

theorem startsOldName_src_false (l : String) (h : startsOldName l = true) :
    isSourceLine l = false := by
  unfold startsOldName at h
  split at h
  · next t heq =>
      unfold isSourceLine
      rw [heq]
      rfl
  · simp at h

theorem startsNewName_src_false (l : String) (h : startsNewName l = true) :
    isSourceLine l = false := by
  unfold startsNewName at h
  split at h
  · next t heq =>
      unfold isSourceLine
      rw [heq]
      rfl
  · simp at h

theorem stepLine_eq_diff (st : ParseState) (l : String) (rest : List String)
    (h1 : startsDiff l = true) :
    stepLine st l rest = .ok (applyDiffLine (bumpPos st) l rest) := by
  unfold stepLine
  simp [h1]

theorem stepLine_eq_hunk (st : ParseState) (l : String) (rest : List String)
    (t : List Char) (ht : l.toList = '@' :: '@' :: ' ' :: t) :
    stepLine st l rest = applyHunkHeader (bumpPos st) l := by
  have h1 : startsDiff l = false := by unfold startsDiff; rw [ht]; rfl
  have h2 : isNullNew l = false := by unfold isNullNew; rw [ht]; rfl
  have h3 : isNullOrig l = false := by unfold isNullOrig; rw [ht]; rfl
  have h4 : startsOldName l = false := by unfold startsOldName; rw [ht]; rfl
  have h5 : startsNewName l = false := by unfold startsNewName; rw [ht]; rfl
  have h6 : startsHunk l = true := by unfold startsHunk; rw [ht]; rfl
  unfold stepLine
  simp [h1, h2, h3, h4, h5, h6]

theorem stepLine_eq_body (st : ParseState) (l : String) (rest : List String)
    (h1 : startsDiff l = false) (h2 : isNullNew l = false) (h3 : isNullOrig l = false)
    (h4 : startsOldName l = false) (h5 : startsNewName l = false) (h6 : startsHunk l = false)
    (h7 : st.inHunk = true) (h8 : isSourceLine l = true) :
    stepLine st l rest = applyBodyLine (bumpPos st) l := by
  unfold stepLine
  have h7b : (bumpPos st).inHunk = true := h7
  simp [h1, h2, h3, h4, h5, h6, h7b, h8]

theorem stepLine_eq_body_space (st : ParseState) (l : String) (rest : List String)
    (t : List Char) (ht : l.toList = ' ' :: t)
    (h7 : st.inHunk = true) (h8 : isSourceLine l = true) :
    stepLine st l rest = applyBodyLine (bumpPos st) l := by
  refine stepLine_eq_body st l rest ?_ ?_ ?_ ?_ ?_ ?_ h7 h8
  · unfold startsDiff; rw [ht]; rfl
  · unfold isNullNew; rw [ht]; rfl
  · unfold isNullOrig; rw [ht]; rfl
  · unfold startsOldName; rw [ht]; rfl
  · unfold startsNewName; rw [ht]; rfl
  · unfold startsHunk; rw [ht]; rfl

theorem stepLine_eq_body_plus (st : ParseState) (l : String) (rest : List String)
    (t : List Char) (ht : l.toList = '+' :: t)
    (h7 : st.inHunk = true) (h8 : isSourceLine l = true) :
    stepLine st l rest = applyBodyLine (bumpPos st) l := by
  refine stepLine_eq_body st l rest ?_ ?_ ?_ ?_ ?_ ?_ h7 h8
  · unfold startsDiff; rw [ht]; rfl
  · cases hn : isNullNew l
    · rfl
    · rw [isNullNew_src_false l hn] at h8; exact absurd h8 (by simp)
  · unfold isNullOrig; rw [ht]; rfl
  · unfold startsOldName; rw [ht]; rfl
  · cases hn : startsNewName l
    · rfl
    · rw [startsNewName_src_false l hn] at h8; exact absurd h8 (by simp)
  · unfold startsHunk; rw [ht]; rfl

theorem stepLine_eq_body_minus (st : ParseState) (l : String) (rest : List String)
    (t : List Char) (ht : l.toList = '-' :: t)
    (h7 : st.inHunk = true) (h8 : isSourceLine l = true) :
    stepLine st l rest = applyBodyLine (bumpPos st) l := by
  refine stepLine_eq_body st l rest ?_ ?_ ?_ ?_ ?_ ?_ h7 h8
  · unfold startsDiff; rw [ht]; rfl
  · unfold isNullNew; rw [ht]; rfl
  · cases hn : isNullOrig l
    · rfl
    · rw [isNullOrig_src_false l hn] at h8; exact absurd h8 (by simp)
  · cases hn : startsOldName l
    · rfl
    · rw [startsOldName_src_false l hn] at h8; exact absurd h8 (by simp)
  · unfold startsNewName; rw [ht]; rfl
  · unfold startsHunk; rw [ht]; rfl

theorem applyBodyLine_space (st : ParseState) (l : String) (t : List Char)
    (ht : l.toList = ' ' :: t) :
    applyBodyLine st l = .ok { st with
      files := modifyLast (modifyLastChunk (appendUnchanged
        { Mode := .Unchanged, Number := st.AddedCount, Content := String.mk t,
          Position := st.diffPosCount }
        { Mode := .Unchanged, Number := st.RemovedCount, Content := String.mk t,
          Position := st.diffPosCount })) st.files
      AddedCount := st.AddedCount + 1
      RemovedCount := st.RemovedCount + 1 } := by
  unfold applyBodyLine lineMode
  rw [ht]
  simp

theorem applyBodyLine_plus (st : ParseState) (l : String) (a : Char) (t : List Char)
    (ht : l.toList = '+' :: a :: t) :
    applyBodyLine st l = .ok { st with
      files := modifyLast (modifyLastChunk (appendNewWhole
        { Mode := .Added, Number := st.AddedCount, Content := String.mk t,
          Position := st.diffPosCount })) st.files
      AddedCount := st.AddedCount + 1 } := by
  unfold applyBodyLine lineMode
  rw [ht]
  simp

theorem applyBodyLine_minus (st : ParseState) (l : String) (a : Char) (t : List Char)
    (ht : l.toList = '-' :: a :: t) :
    applyBodyLine st l = .ok { st with
      files := modifyLast (modifyLastChunk (appendOrigWhole
        { Mode := .Removed, Number := st.RemovedCount, Content := String.mk t,
          Position := st.diffPosCount })) st.files
      RemovedCount := st.RemovedCount + 1 } := by
  unfold applyBodyLine lineMode
  rw [ht]
  simp

theorem applyBodyLine_plus_panic (st : ParseState) (l : String)
    (ht : l.toList = ['+']) : applyBodyLine st l = .panic := by
  unfold applyBodyLine lineMode
  rw [ht]
  rfl

theorem applyBodyLine_minus_panic (st : ParseState) (l : String)
    (ht : l.toList = ['-']) : applyBodyLine st l = .panic := by
  unfold applyBodyLine lineMode
  rw [ht]
  rfl

theorem buildHeader_eq_headerSpec (l : String) (rest : List String) :
    buildHeader l rest = headerSpec l rest := by
  cases rest with
  | nil => simp [buildHeader, headerSpec]
  | cons l1 r1 =>
    cases r1 with
    | nil => simp [buildHeader, headerSpec]
    | cons l2 r2 =>
      cases r2 with
      | nil => simp [buildHeader, headerSpec]
      | cons l3 r3 =>
        have hlen : ¬ (l1 :: l2 :: l3 :: r3).length < 3 := by
          simp [List.length_cons]
        unfold buildHeader headerSpec
        rw [if_neg hlen]
        rfl

theorem applyHunkHeader_nil (st : ParseState) (l : String) (hfs : st.files = []) :
    applyHunkHeader st l = .panic := by
  unfold applyHunkHeader
  rw [hfs]

theorem applyHunkHeader_none (st : ParseState) (l : String) (f0 : DiffFile)
    (fs : List DiffFile) (hfs : st.files = f0 :: fs)
    (hm : findHunkMatch l.toList = none) :
    applyHunkHeader st l = .err (.hunkHeaderErr l) := by
  unfold applyHunkHeader
  rw [hfs, hm]

theorem applyHunkHeader_err (st : ParseState) (l : String) (f0 : DiffFile)
    (fs : List DiffFile) (hfs : st.files = f0 :: fs)
    (g1 g2 g3 g4 g5 : List Char) (hm : findHunkMatch l.toList = some (g1, g2, g3, g4, g5))
    (e : ParseErr)
    (hn : parseHunkNums (String.mk g1) (String.mk g2) (String.mk g3) (String.mk g4) =
      .error e) :
    applyHunkHeader st l = .err e := by
  unfold applyHunkHeader
  rw [hfs]
  dsimp only
  rw [hm]
  dsimp only
  rw [hn]

theorem applyHunkHeader_ok (st : ParseState) (l : String) (f0 : DiffFile)
    (fs : List DiffFile) (hfs : st.files = f0 :: fs)
    (g1 g2 g3 g4 g5 : List Char) (hm : findHunkMatch l.toList = some (g1, g2, g3, g4, g5))
    (a b c d : Int)
    (hn : parseHunkNums (String.mk g1) (String.mk g2) (String.mk g3) (String.mk g4) =
      .ok (a, b, c, d)) :
    applyHunkHeader st l = .ok { hunkReset st with
      inHunk := true
      files := modifyLast (fun f => { f with Chunks := f.Chunks ++ [mkChunk a b c d g5] })
        (hunkReset st).files
      AddedCount := c
      RemovedCount := a } := by
  unfold applyHunkHeader
  rw [hfs]
  dsimp only
  rw [hm]
  dsimp only
  rw [hn]

theorem parseHunkNums_empty_snd (g1 g3 g4 : String) (a b c d : Int)
    (h : parseHunkNums g1 (String.mk []) g3 g4 = .ok (a, b, c, d)) : b = a := by
  unfold parseHunkNums at h
  split at h
  · simp at h
  · next a' heq =>
    rw [show (if 0 < (String.mk ([] : List Char)).toList.length then goAtoi (String.mk [])
        else Except.ok a') = Except.ok a' from rfl] at h
    dsimp only at h
    split at h
    · simp at h
    · next c' heq3 =>
      split at h
      · simp at h
      · next d' heq4 =>
        simp at h
        omega

theorem hunkReset_files (st : ParseState) : (hunkReset st).files = st.files := by
  unfold hunkReset
  split <;> rfl

theorem startsHunk_false_of_diff (l : String) (h : startsDiff l = true) :
    startsHunk l = false := by
  obtain ⟨t, ht⟩ := startsDiff_shape l h
  unfold startsHunk
  rw [ht]
  rfl

theorem startsHunk_false_of_nullNew (l : String) (h : isNullNew l = true) :
    startsHunk l = false := by
  unfold isNullNew at h
  split at h
  · next heq => unfold startsHunk; rw [heq]; rfl
  · simp at h

theorem startsHunk_false_of_nullOrig (l : String) (h : isNullOrig l = true) :
    startsHunk l = false := by
  unfold isNullOrig at h
  split at h
  · next heq => unfold startsHunk; rw [heq]; rfl
  · simp at h

theorem startsHunk_false_of_oldName (l : String) (h : startsOldName l = true) :
    startsHunk l = false := by
  unfold startsOldName at h
  split at h
  · next t heq => unfold startsHunk; rw [heq]; rfl
  · simp at h

theorem startsHunk_false_of_newName (l : String) (h : startsNewName l = true) :
    startsHunk l = false := by
  unfold startsNewName at h
  split at h
  · next t heq => unfold startsHunk; rw [heq]; rfl
  · simp at h

theorem applyHunkHeader_ok_inv (st : ParseState) (l : String) (st' : ParseState)
    (h : applyHunkHeader st l = .ok st') :
    st'.diffPosCount = (hunkReset st).diffPosCount := by
  unfold applyHunkHeader at h
  split at h
  · simp at h
  · split at h
    · simp at h
    · split at h
      · simp at h
      · simp only [GoResult.ok.injEq] at h
        subst h
        rfl

theorem applyBodyLine_ok_inv (st : ParseState) (l : String) (st' : ParseState)
    (h : applyBodyLine st l = .ok st') : st'.diffPosCount = st.diffPosCount := by
  unfold applyBodyLine at h
  split at h
  · simp at h
  · simp at h
  · split at h
    · split at h
      · simp at h
      · simp only [GoResult.ok.injEq] at h
        subst h
        rfl
    · split at h
      · simp at h
      · simp only [GoResult.ok.injEq] at h
        subst h
        rfl
    · simp only [GoResult.ok.injEq] at h
      subst h
      rfl

theorem setFileMode_ok_inv (m : FileMode) (st : ParseState) (st' : ParseState)
    (h : setFileMode m st = .ok st') : st'.diffPosCount = st.diffPosCount := by
  unfold setFileMode at h
  split at h
  · simp at h
  · simp only [GoResult.ok.injEq] at h
    subst h
    rfl

theorem setOrigName_ok_inv (st : ParseState) (l : String) (st' : ParseState)
    (h : setOrigName st l = .ok st') : st'.diffPosCount = st.diffPosCount := by
  unfold setOrigName at h
  split at h
  · simp at h
  · simp only [GoResult.ok.injEq] at h
    subst h
    rfl

theorem setNewName_ok_inv (st : ParseState) (l : String) (st' : ParseState)
    (h : setNewName st l = .ok st') : st'.diffPosCount = st.diffPosCount := by
  unfold setNewName at h
  split at h
  · simp at h
  · simp only [GoResult.ok.injEq] at h
    subst h
    rfl

theorem parseHunkNums_empty_4th (g1 g2 g3 : String) (a b c d : Int)
    (h : parseHunkNums g1 g2 g3 (String.mk []) = .ok (a, b, c, d)) : d = c := by
  unfold parseHunkNums at h
  split at h
  · simp at h
  · next a' heq =>
    split at h
    · simp at h
    · next b' heq2 =>
      split at h
      · simp at h
      · next c' heq3 =>
        rw [show (if 0 < (String.mk ([] : List Char)).toList.length then goAtoi (String.mk [])
            else Except.ok c') = Except.ok c' from rfl] at h
        dsimp only at h
        simp at h
        omega

/-- C3: the claim says Parse runs to completion with a Diff or an error
for every input; on a "+++ /dev/null" line before any "diff " line the
code assigns through the nil file pointer, a runtime panic. -/
theorem c3_parse_panics : Parse "+++ /dev/null" = .panic := by decide

/-- C9: Parse of the empty string returns no error and a Diff whose
Files sequence is empty (and Raw is the input). -/
theorem c9_empty_input : Parse "" = .ok { Files := [], Raw := "", PullID := 0 } := by decide

/-- C1 counterexample: the claim says an omitted ",len" field yields
Length 1; at "@@ -5 +5 @@" the parsed OrigRange has Length 5, not 1. -/
theorem c1_counterexample :
    (firstChunk? (Parse "diff a b\n@@ -5 +5 @@")).map (fun ch => ch.OrigRange.Length) =
      some 5 ∧
    ¬ (firstChunk? (Parse "diff a b\n@@ -5 +5 @@")).map (fun ch => ch.OrigRange.Length) =
      some 1 :=
  ⟨by decide, by decide⟩

/-- C1 amended: when a side's ",len" field is omitted in a matched hunk
heading (its capture group is empty), that side's DiffRange Length
equals its Start value. -/
theorem c1_omitted_len_eq_start (st : ParseState) (l : String) (rest : List String)
    (st' : ParseState) (t g1 g2 g3 g4 g5 : List Char)
    (ht : l.toList = '@' :: '@' :: ' ' :: t)
    (hm : findHunkMatch l.toList = some (g1, g2, g3, g4, g5))
    (hok : stepLine st l rest = .ok st') :
    (g2 = [] → ∃ ch, lastChunk? st' = some ch ∧ ch.OrigRange.Length = ch.OrigRange.Start) ∧
    (g4 = [] → ∃ ch, lastChunk? st' = some ch ∧ ch.NewRange.Length = ch.NewRange.Start) := by
  rw [stepLine_eq_hunk st l rest t ht] at hok
  cases hfs : (bumpPos st).files with
  | nil =>
    rw [applyHunkHeader_nil _ _ hfs] at hok
    simp at hok
  | cons f0 fs =>
    cases hn : parseHunkNums (String.mk g1) (String.mk g2) (String.mk g3) (String.mk g4) with
    | error e =>
      rw [applyHunkHeader_err _ l f0 fs hfs g1 g2 g3 g4 g5 hm e hn] at hok
      simp at hok
    | ok v =>
      obtain ⟨a, b, c, d⟩ := v
      rw [applyHunkHeader_ok _ l f0 fs hfs g1 g2 g3 g4 g5 hm a b c d hn] at hok
      simp only [GoResult.ok.injEq] at hok
      subst hok
      have hfs2 : (hunkReset (bumpPos st)).files ≠ [] := by
        rw [hunkReset_files, hfs]
        simp
      have hlast :
          lastChunk? { hunkReset (bumpPos st) with
            inHunk := true
            files := modifyLast
              (fun f => { f with Chunks := f.Chunks ++ [mkChunk a b c d g5] })
              (hunkReset (bumpPos st)).files
            AddedCount := c
            RemovedCount := a } = some (mkChunk a b c d g5) :=
        filesLastChunk?_appendChunk (mkChunk a b c d g5) _ hfs2
      constructor
      · intro hg2
        subst hg2
        exact ⟨mkChunk a b c d g5, hlast, (parseHunkNums_empty_snd _ _ _ a b c d hn).symm ▸ rfl⟩
      · intro hg4
        subst hg4
        exact ⟨mkChunk a b c d g5, hlast, (parseHunkNums_empty_4th _ _ _ a b c d hn).symm ▸ rfl⟩

/-- C1 witness: the amended theorem applied at "@@ -5 +5 @@" in a state
with one current file. -/
theorem c1_omitted_len_eq_start_witness :
    (([] : List Char) = [] →
      ∃ ch, lastChunk? (okState (stepLine wst1 "@@ -5 +5 @@" [])) = some ch ∧
        ch.OrigRange.Length = ch.OrigRange.Start) ∧
    (([] : List Char) = [] →
      ∃ ch, lastChunk? (okState (stepLine wst1 "@@ -5 +5 @@" [])) = some ch ∧
        ch.NewRange.Length = ch.NewRange.Start) :=
  c1_omitted_len_eq_start wst1 "@@ -5 +5 @@" [] (okState (stepLine wst1 "@@ -5 +5 @@" []))
    ("-5 +5 @@".toList) (['5']) [] (['5']) [] []
    (by decide) (by decide) (by decide)

/-- C2: at the first file of the repository's own example (whose
expected contents the test suite lists as "add a line" and "in"), Parse
strips the marker plus one further character from Added and Removed
lines, storing "dd a line" and "n". -/
theorem c2_two_chars_stripped :
    (firstChunk? (Parse exampleDiff1)).map
        (fun ch => ch.NewRange.Lines.map (fun dl => dl.Content)) =
      some ["dd a line", "some", "lines", "file1"] ∧
    (firstChunk? (Parse exampleDiff1)).map
        (fun ch => ch.OrigRange.Lines.map (fun dl => dl.Content)) =
      some ["some", "lines", "n", "file1"] ∧
    ("dd a line" : String) ≠ "add a line" ∧ ("n" : String) ≠ "in" :=
  ⟨by decide, by decide, by decide, by decide⟩

/-- C5 counterexample: a hunk heading whose start field exceeds the
64-bit range makes strconv.Atoi fail; Parse returns that conversion
error, which names the field but does not carry the offending raw
line. -/
theorem c5_counterexample :
    Parse "diff a b\n@@ -9999999999999999999 +1 @@" =
      .err (.atoiErr "9999999999999999999") ∧
    ¬ carriesLine (.atoiErr "9999999999999999999") "@@ -9999999999999999999 +1 @@" :=
  ⟨by decide, by decide⟩

/-- C5 amended: an "@@ "-prefixed line processed while a file is current
yields, on a pattern mismatch, the error "Error parsing line: " plus the
line (which therefore carries the raw line) and no state; on an
out-of-range numeric field it yields the conversion error itself. -/
theorem c5_error_cases (st : ParseState) (l : String) (rest : List String) (t : List Char)
    (ht : l.toList = '@' :: '@' :: ' ' :: t) (hne : st.files ≠ []) :
    (findHunkMatch l.toList = none →
      stepLine st l rest = .err (.hunkHeaderErr l) ∧ carriesLine (.hunkHeaderErr l) l) ∧
    (∀ g1 g2 g3 g4 g5 e, findHunkMatch l.toList = some (g1, g2, g3, g4, g5) →
      parseHunkNums (String.mk g1) (String.mk g2) (String.mk g3) (String.mk g4) = .error e →
      stepLine st l rest = .err e) := by
  have hstep := stepLine_eq_hunk st l rest t ht
  constructor
  · intro hm
    constructor
    · rw [hstep]
      cases hfs : (bumpPos st).files with
      | nil => exact absurd hfs hne
      | cons f0 fs => exact applyHunkHeader_none _ l f0 fs hfs hm
    · show l.toList <:+: (ParseErr.hunkHeaderErr l).message.toList
      refine ⟨"Error parsing line: ".toList, [], ?_⟩
      simp [ParseErr.message, String.toList, String.data_append]
  · intro g1 g2 g3 g4 g5 e hm hn
    rw [hstep]
    cases hfs : (bumpPos st).files with
    | nil => exact absurd hfs hne
    | cons f0 fs => exact applyHunkHeader_err _ l f0 fs hfs g1 g2 g3 g4 g5 hm e hn

/-- C5 witness: the amended theorem applied at the unmatchable heading
"@@ bad @@" in a state with one current file. -/
theorem c5_error_cases_witness :
    (findHunkMatch "@@ bad @@".toList = none →
      stepLine wst1 "@@ bad @@" [] = .err (.hunkHeaderErr "@@ bad @@") ∧
      carriesLine (.hunkHeaderErr "@@ bad @@") "@@ bad @@") ∧
    (∀ g1 g2 g3 g4 g5 e, findHunkMatch "@@ bad @@".toList = some (g1, g2, g3, g4, g5) →
      parseHunkNums (String.mk g1) (String.mk g2) (String.mk g3) (String.mk g4) = .error e →
      stepLine wst1 "@@ bad @@" [] = .err e) :=
  c5_error_cases wst1 "@@ bad @@" [] ("bad @@".toList) (by decide) (by decide)

/-- C10 counterexample: the claim says the "---"/"+++" pair right after
the diff line is appended to Header even without an index line; the code
checks only the second and third following lines, so here the Header
stays "diff a b". -/
theorem c10_counterexample :
    (firstFile? (Parse "diff a b\n--- a/f\n+++ b/f\n zzz")).map (fun f => f.DiffHeader) =
      some "diff a b" ∧
    ¬ (firstFile? (Parse "diff a b\n--- a/f\n+++ b/f\n zzz")).map (fun f => f.DiffHeader) =
      some "diff a b\n--- a/f\n+++ b/f" :=
  ⟨by decide, by decide⟩

/-- C10 amended: a "diff " line starts a file whose Header is the diff
line; when at least three lines follow, the first following line is
appended iff it matches the index pattern, and the second and third
following lines are appended iff both match the marker pattern. -/
theorem c10_header_rule (st : ParseState) (l : String) (rest : List String)
    (st' : ParseState) (h1 : startsDiff l = true)
    (hok : stepLine st l rest = .ok st') :
    ∃ f, st'.files.getLast? = some f ∧ f.DiffHeader = headerSpec l rest ∧
      f.Mode = FileMode.Modified := by
  rw [stepLine_eq_diff st l rest h1] at hok
  simp only [GoResult.ok.injEq] at hok
  subst hok
  refine ⟨{ DiffHeader := buildHeader l rest, Mode := FileMode.Modified, OrigName := "",
            NewName := "", Chunks := [] }, ?_, ?_, rfl⟩
  · exact List.getLast?_concat _
  · exact buildHeader_eq_headerSpec l rest

/-- C4: a hunk body line whose marker is "+" (resp. "-") is stored with
the marker character and exactly one further character removed from its
Content (the stored content is the line minus its first two characters). -/
theorem c4_marker_strip (st : ParseState) (l : String) (rest : List String)
    (st' : ParseState) (ch : DiffChunk) (a : Char) (t : List Char)
    (hin : st.inHunk = true) (hsrc : isSourceLine l = true)
    (hch : lastChunk? st = some ch) (hok : stepLine st l rest = .ok st') :
    (l.toList = '+' :: a :: t →
      ∃ ch' nl, lastChunk? st' = some ch' ∧
        ch'.WholeRange.Lines = ch.WholeRange.Lines ++ [nl] ∧ nl.Content = String.mk t) ∧
    (l.toList = '-' :: a :: t →
      ∃ ch' ol, lastChunk? st' = some ch' ∧
        ch'.WholeRange.Lines = ch.WholeRange.Lines ++ [ol] ∧ ol.Content = String.mk t) := by
  constructor
  · intro ht
    rw [stepLine_eq_body_plus st l rest (a :: t) ht hin hsrc,
        applyBodyLine_plus (bumpPos st) l a t ht] at hok
    simp only [GoResult.ok.injEq] at hok
    subst hok
    exact ⟨_, _, filesLastChunk?_modify _ _ ch hch, rfl, rfl⟩
  · intro ht
    rw [stepLine_eq_body_minus st l rest (a :: t) ht hin hsrc,
        applyBodyLine_minus (bumpPos st) l a t ht] at hok
    simp only [GoResult.ok.injEq] at hok
    subst hok
    exact ⟨_, _, filesLastChunk?_modify _ _ ch hch, rfl, rfl⟩

/-- C4 witness: the theorem applied at the body line "+ab" in an
in-hunk state. -/
theorem c4_marker_strip_witness :
    (("+ab" : String).toList = '+' :: 'a' :: ['b'] →
      ∃ ch' nl, lastChunk? (okState (stepLine wst2 "+ab" [])) = some ch' ∧
        ch'.WholeRange.Lines = wChunk.WholeRange.Lines ++ [nl] ∧
        nl.Content = String.mk ['b']) ∧
    (("+ab" : String).toList = '-' :: 'a' :: ['b'] →
      ∃ ch' ol, lastChunk? (okState (stepLine wst2 "+ab" [])) = some ch' ∧
        ch'.WholeRange.Lines = wChunk.WholeRange.Lines ++ [ol] ∧
        ol.Content = String.mk ['b']) :=
  c4_marker_strip wst2 "+ab" [] (okState (stepLine wst2 "+ab" [])) wChunk 'a' (['b'])
    (by decide) (by decide) (by decide) (by decide)

/-- C7: inside a hunk, an Unchanged body line contributes one record to
NewRange and one to OrigRange (equal Content and Position, Numbers from
the added and removed counters respectively) and one shared entry (the
new-side record) to WholeRange; an Added (resp. Removed) body line
contributes exactly one record, placed in NewRange (resp. OrigRange) and
in WholeRange, the other side staying unchanged. -/
theorem c7_record_shape (st : ParseState) (l : String) (rest : List String)
    (st' : ParseState) (ch : DiffChunk)
    (hin : st.inHunk = true) (hsrc : isSourceLine l = true)
    (hch : lastChunk? st = some ch) (hok : stepLine st l rest = .ok st') :
    (∀ t, l.toList = ' ' :: t →
      ∃ ch' nl ol, lastChunk? st' = some ch' ∧
        nl.Content = ol.Content ∧ nl.Position = ol.Position ∧
        nl.Number = st.AddedCount ∧ ol.Number = st.RemovedCount ∧
        ch'.NewRange.Lines = ch.NewRange.Lines ++ [nl] ∧
        ch'.OrigRange.Lines = ch.OrigRange.Lines ++ [ol] ∧
        ch'.WholeRange.Lines = ch.WholeRange.Lines ++ [nl]) ∧
    (∀ a t, l.toList = '+' :: a :: t →
      ∃ ch' nl, lastChunk? st' = some ch' ∧
        ch'.NewRange.Lines = ch.NewRange.Lines ++ [nl] ∧
        ch'.WholeRange.Lines = ch.WholeRange.Lines ++ [nl] ∧
        ch'.OrigRange.Lines = ch.OrigRange.Lines) ∧
    (∀ a t, l.toList = '-' :: a :: t →
      ∃ ch' ol, lastChunk? st' = some ch' ∧
        ch'.OrigRange.Lines = ch.OrigRange.Lines ++ [ol] ∧
        ch'.WholeRange.Lines = ch.WholeRange.Lines ++ [ol] ∧
        ch'.NewRange.Lines = ch.NewRange.Lines) := by
  refine ⟨?_, ?_, ?_⟩
  · intro t ht
    rw [stepLine_eq_body_space st l rest t ht hin hsrc,
        applyBodyLine_space (bumpPos st) l t ht] at hok
    simp only [GoResult.ok.injEq] at hok
    subst hok
    exact ⟨_,
      { Mode := DiffLineMode.Unchanged, Number := st.AddedCount, Content := String.mk t,
        Position := st.diffPosCount + 1 },
      { Mode := DiffLineMode.Unchanged, Number := st.RemovedCount, Content := String.mk t,
        Position := st.diffPosCount + 1 },
      filesLastChunk?_modify _ _ ch hch, rfl, rfl, rfl, rfl, rfl, rfl, rfl⟩
  · intro a t ht
    rw [stepLine_eq_body_plus st l rest (a :: t) ht hin hsrc,
        applyBodyLine_plus (bumpPos st) l a t ht] at hok
    simp only [GoResult.ok.injEq] at hok
    subst hok
    exact ⟨_, _, filesLastChunk?_modify _ _ ch hch, rfl, rfl, rfl⟩
  · intro a t ht
    rw [stepLine_eq_body_minus st l rest (a :: t) ht hin hsrc,
        applyBodyLine_minus (bumpPos st) l a t ht] at hok
    simp only [GoResult.ok.injEq] at hok
    subst hok
    exact ⟨_, _, filesLastChunk?_modify _ _ ch hch, rfl, rfl, rfl⟩

/-- C7 witness: the theorem applied at the body line " x" in an in-hunk
state. -/
theorem c7_record_shape_witness :
    (∀ t, (" x" : String).toList = ' ' :: t →
      ∃ ch' nl ol, lastChunk? (okState (stepLine wst2 " x" [])) = some ch' ∧
        nl.Content = ol.Content ∧ nl.Position = ol.Position ∧
        nl.Number = wst2.AddedCount ∧ ol.Number = wst2.RemovedCount ∧
        ch'.NewRange.Lines = wChunk.NewRange.Lines ++ [nl] ∧
        ch'.OrigRange.Lines = wChunk.OrigRange.Lines ++ [ol] ∧
        ch'.WholeRange.Lines = wChunk.WholeRange.Lines ++ [nl]) ∧
    (∀ a t, (" x" : String).toList = '+' :: a :: t →
      ∃ ch' nl, lastChunk? (okState (stepLine wst2 " x" [])) = some ch' ∧
        ch'.NewRange.Lines = wChunk.NewRange.Lines ++ [nl] ∧
        ch'.WholeRange.Lines = wChunk.WholeRange.Lines ++ [nl] ∧
        ch'.OrigRange.Lines = wChunk.OrigRange.Lines) ∧
    (∀ a t, (" x" : String).toList = '-' :: a :: t →
      ∃ ch' ol, lastChunk? (okState (stepLine wst2 " x" [])) = some ch' ∧
        ch'.OrigRange.Lines = wChunk.OrigRange.Lines ++ [ol] ∧
        ch'.WholeRange.Lines = wChunk.WholeRange.Lines ++ [ol] ∧
        ch'.NewRange.Lines = wChunk.NewRange.Lines) :=
  c7_record_shape wst2 " x" [] (okState (stepLine wst2 " x" [])) wChunk
    (by decide) (by decide) (by decide) (by decide)

/-- C8: every successful step increments the position counter by one,
except a hunk heading processed while the first-hunk flag is set, which
resets it to zero (so the line after a file's first hunk heading records
Position 1); and every body-line record carries Position equal to the
incremented counter. -/
theorem c8_position_counter (st : ParseState) (l : String) (rest : List String)
    (st' : ParseState) (hok : stepLine st l rest = .ok st') :
    (st'.diffPosCount =
      if startsHunk l = true ∧ st.firstHunkInFile = true then 0
      else st.diffPosCount + 1) ∧
    (∀ ch, st.inHunk = true → isSourceLine l = true → lastChunk? st = some ch →
      ((∀ t, l.toList = ' ' :: t →
          ∃ ch' dl, lastChunk? st' = some ch' ∧
            ch'.WholeRange.Lines = ch.WholeRange.Lines ++ [dl] ∧
            dl.Position = st.diffPosCount + 1) ∧
       (∀ a t, l.toList = '+' :: a :: t →
          ∃ ch' dl, lastChunk? st' = some ch' ∧
            ch'.WholeRange.Lines = ch.WholeRange.Lines ++ [dl] ∧
            dl.Position = st.diffPosCount + 1) ∧
       (∀ a t, l.toList = '-' :: a :: t →
          ∃ ch' dl, lastChunk? st' = some ch' ∧
            ch'.WholeRange.Lines = ch.WholeRange.Lines ++ [dl] ∧
            dl.Position = st.diffPosCount + 1))) := by
  constructor
  · unfold stepLine at hok
    split at hok
    · next h1 =>
      simp only [GoResult.ok.injEq] at hok
      subst hok
      have hh := startsHunk_false_of_diff l h1
      rw [if_neg (by simp [hh])]
      rfl
    · next h1n =>
      split at hok
      · next h2 =>
        have hh := startsHunk_false_of_nullNew l h2
        rw [if_neg (by simp [hh]), setFileMode_ok_inv _ _ _ hok]
        rfl
      · next h2n =>
        split at hok
        · next h3 =>
          have hh := startsHunk_false_of_nullOrig l h3
          rw [if_neg (by simp [hh]), setFileMode_ok_inv _ _ _ hok]
          rfl
        · next h3n =>
          split at hok
          · next h4 =>
            have hh := startsHunk_false_of_oldName l h4
            rw [if_neg (by simp [hh]), setOrigName_ok_inv _ _ _ hok]
            rfl
          · next h4n =>
            split at hok
            · next h5 =>
              have hh := startsHunk_false_of_newName l h5
              rw [if_neg (by simp [hh]), setNewName_ok_inv _ _ _ hok]
              rfl
            · next h5n =>
              split at hok
              · next h6 =>
                rw [applyHunkHeader_ok_inv _ _ _ hok]
                unfold hunkReset
                by_cases hf : st.firstHunkInFile = true
                · have hf2 : (bumpPos st).firstHunkInFile = true := hf
                  rw [if_pos hf2, if_pos ⟨h6, hf⟩]
                · have hf2 : ¬ ((bumpPos st).firstHunkInFile = true) := hf
                  rw [if_neg hf2, if_neg (fun hc => hf hc.2)]
                  rfl
              · next h6n =>
                split at hok
                · next h7 =>
                  rw [applyBodyLine_ok_inv _ _ _ hok, if_neg (fun hc => h6n hc.1)]
                  rfl
                · next h7n =>
                  simp only [GoResult.ok.injEq] at hok
                  subst hok
                  rw [if_neg (fun hc => h6n hc.1)]
                  rfl
  · intro ch hin hsrc hch
    refine ⟨?_, ?_, ?_⟩
    · intro t ht
      rw [stepLine_eq_body_space st l rest t ht hin hsrc,
          applyBodyLine_space (bumpPos st) l t ht] at hok
      simp only [GoResult.ok.injEq] at hok
      subst hok
      exact ⟨_, _, filesLastChunk?_modify _ _ ch hch, rfl, rfl⟩
    · intro a t ht
      rw [stepLine_eq_body_plus st l rest (a :: t) ht hin hsrc,
          applyBodyLine_plus (bumpPos st) l a t ht] at hok
      simp only [GoResult.ok.injEq] at hok
      subst hok
      exact ⟨_, _, filesLastChunk?_modify _ _ ch hch, rfl, rfl⟩
    · intro a t ht
      rw [stepLine_eq_body_minus st l rest (a :: t) ht hin hsrc,
          applyBodyLine_minus (bumpPos st) l a t ht] at hok
      simp only [GoResult.ok.injEq] at hok
      subst hok
      exact ⟨_, _, filesLastChunk?_modify _ _ ch hch, rfl, rfl⟩

/-- C8 witness: the theorem applied at the body line " x" in an in-hunk
state. -/
theorem c8_position_counter_witness :
    ((okState (stepLine wst2 " x" [])).diffPosCount =
      if startsHunk " x" = true ∧ wst2.firstHunkInFile = true then 0
      else wst2.diffPosCount + 1) ∧
    (∀ ch, wst2.inHunk = true → isSourceLine " x" = true → lastChunk? wst2 = some ch →
      ((∀ t, (" x" : String).toList = ' ' :: t →
          ∃ ch' dl, lastChunk? (okState (stepLine wst2 " x" [])) = some ch' ∧
            ch'.WholeRange.Lines = ch.WholeRange.Lines ++ [dl] ∧
            dl.Position = wst2.diffPosCount + 1) ∧
       (∀ a t, (" x" : String).toList = '+' :: a :: t →
          ∃ ch' dl, lastChunk? (okState (stepLine wst2 " x" [])) = some ch' ∧
            ch'.WholeRange.Lines = ch.WholeRange.Lines ++ [dl] ∧
            dl.Position = wst2.diffPosCount + 1) ∧
       (∀ a t, (" x" : String).toList = '-' :: a :: t →
          ∃ ch' dl, lastChunk? (okState (stepLine wst2 " x" [])) = some ch' ∧
            ch'.WholeRange.Lines = ch.WholeRange.Lines ++ [dl] ∧
            dl.Position = wst2.diffPosCount + 1))) :=
  c8_position_counter wst2 " x" [] (okState (stepLine wst2 " x" [])) (by decide)

theorem changedLineStep_fold (nn : String) (lines : List DiffLine)
    (acc : String → List Int) (name : String) :
    (lines.foldl (changedLineStep nn) acc) name =
      if name = nn then acc name ++ addedOf lines else acc name := by
  induction lines generalizing acc with
  | nil => simp [addedOf]
  | cons dl rest ih =>
    rw [List.foldl_cons, ih]
    unfold changedLineStep
    by_cases hm : dl.Mode = DiffLineMode.Added
    · by_cases hn : name = nn
      · simp [hm, hn, addedOf]
      · simp [hm, hn, addedOf]
    · by_cases hn : name = nn
      · simp [hm, hn, addedOf]
      · simp [hm, hn, addedOf]

theorem changedChunkStep_fold (nn : String) (chunks : List DiffChunk)
    (acc : String → List Int) (name : String) :
    (chunks.foldl (changedChunkStep nn) acc) name =
      if name = nn then
        acc name ++ chunks.flatMap (fun h => addedOf h.NewRange.Lines)
      else acc name := by
  induction chunks generalizing acc with
  | nil => simp
  | cons h0 rest ih =>
    rw [List.foldl_cons, ih]
    unfold changedChunkStep
    rw [changedLineStep_fold]
    by_cases hn : name = nn
    · simp [hn]
    · simp [hn]

theorem changedFileStep_fold (files : List DiffFile) (acc : String → List Int)
    (name : String) :
    (files.foldl changedFileStep acc) name =
      acc name ++ (files.filter
        (fun f => !(f.Mode == FileMode.Deleted) && f.NewName == name)).flatMap
        addedNumbers := by
  induction files generalizing acc with
  | nil => simp
  | cons f rest ih =>
    rw [List.foldl_cons, ih]
    unfold changedFileStep
    by_cases hdel : f.Mode = FileMode.Deleted
    · simp [hdel]
    · rw [if_neg hdel, changedChunkStep_fold]
      by_cases hnm : name = f.NewName
      · simp [hdel, hnm, addedNumbers]
      · simp [hdel, hnm, Ne.symm hnm]

/-- C6: Changed is exactly the map sending each NewName to the Number
fields of the Added-mode lines of the NewRange chunks of its non-Deleted
files, in input order; Deleted files contribute nothing and Removed-line
numbers never appear. -/
theorem c6_changed_refines_spec (d : Diff) (name : String) :
    d.Changed name = changedSpec d name := by
  unfold Diff.Changed changedSpec
  rw [changedFileStep_fold]
  simp

/-- C10 witness: the amended theorem applied at a diff line followed by
an index line and a marker pair. -/
theorem c10_header_rule_witness :
    ∃ f, (okState (stepLine initState "diff a b" ["index 1", "--- a/f", "+++ b/f"])).files.getLast? =
        some f ∧
      f.DiffHeader = headerSpec "diff a b" ["index 1", "--- a/f", "+++ b/f"] ∧
      f.Mode = FileMode.Modified :=
  c10_header_rule initState "diff a b" ["index 1", "--- a/f", "+++ b/f"]
    (okState (stepLine initState "diff a b" ["index 1", "--- a/f", "+++ b/f"]))
    (by decide) (by decide)

end Diffparser
